import Mathlib

/-!
Verification of the URL-construction core of `git-file-url` (src/main.rs).

Rust strings are modelled as lists of characters (`Str`).  The fallible
functions of the program return `Except Str _`, the error component being the
message carried by the `anyhow!` error.  The helper functions `stripPrefixL`,
`stripSuffixL`, `rustReplace` and `containsL` model the Rust standard-library
methods `str::strip_prefix`, `str::strip_suffix`, `str::replace` (with a
single-character pattern) and `str::contains` (with a string pattern).
-/

namespace GitFileUrl

/-- Characters of a Rust `String` / `&str`. -/
abbrev Str := List Char

/-- Rust `s.strip_prefix(pat)`: `some` of the remainder when `pat` is a
prefix of `s`, otherwise `none`. -/
def stripPrefixL (s pat : Str) : Option Str :=
  match pat, s with
  | [], s => some s
  | _ :: _, [] => none
  | p :: ps, c :: cs => if c = p then stripPrefixL cs ps else none

/-- Rust `s.strip_suffix(pat)`: `some` of the front when `pat` is a suffix
of `s`, otherwise `none`. -/
def stripSuffixL (s pat : Str) : Option Str :=
  (stripPrefixL s.reverse pat.reverse).map List.reverse

/-- Rust `s.replace(a, b)` for a single-character pattern `a`: every
occurrence of `a` is replaced by `b`. -/
def rustReplace (s : Str) (a b : Char) : Str :=
  s.map fun c => if c = a then b else c

/-- Rust `s.contains(pat)` for a string pattern: substring containment. -/
def containsL (s pat : Str) : Bool :=
  decide (pat <:+: s)

/-- Decimal rendering of a line number, as Rust `Display` for an unsigned
integer (`format!("{}", n)`). -/
def natChars (n : Nat) : Str :=
  (Nat.repr n).data

/-- Message of `anyhow!("Invalid remote form")` (src/main.rs lines 61 and 70). -/
def invalidRemoteFormMsg : Str := "Invalid remote form".data

/-- Message of `anyhow!("cannot get repository url")` (src/main.rs lines 67 and 74). -/
def cannotGetUrlMsg : Str := "cannot get repository url".data

/-- Message of `anyhow!("unknown url, try passing --url param")` (src/main.rs line 133). -/
def unknownUrlMsg : Str := "unknown url, try passing --url param".data

/-- Models `fmt::write` into a `String` buffer (src/main.rs lines 12 and 23):
appends the formatted text to the buffer.  Writing into an in-memory `String`
never fails, so the result is always `ok`; the `Except` shape records that the
Rust code still propagates the (unreachable) error with `?`. -/
def fmtWrite (buf s : Str) : Except Str Str :=
  Except.ok (buf ++ s)

/-- `github` from src/main.rs lines 9–27: builds
`{url}/blob/{branch}/{path}` and, when a line is given, appends `#L{line}`. -/
def github (repo_url branch_or_commit path : Str) (line : Option Nat) :
    Except Str Str := do
  let url : Str := []
  let url ← fmtWrite url
    (repo_url ++ "/blob/".data ++ branch_or_commit ++ "/".data ++ path)
  let url ← match line with
    | some line => fmtWrite url ("#L".data ++ natChars line)
    | none => pure url
  return url

/-- `gitlab` from src/main.rs lines 29–47: like `github` but with the extra
`-` path segment before `blob`; when a line is given, appends `#L{line}`. -/
def gitlab (repo_url branch_or_commit path : Str) (line : Option Nat) :
    Except Str Str := do
  let url : Str := []
  let url ← fmtWrite url
    (repo_url ++ "/-/blob/".data ++ branch_or_commit ++ "/".data ++ path)
  let url ← match line with
    | some line => fmtWrite url ("#L".data ++ natChars line)
    | none => pure url
  return url

/-- `get_url` from src/main.rs lines 49–76: normalizes an optional raw remote
URL.  SSH shorthand `git@ form ending in .git` is rewritten to `https://…` with `:`
replaced by `/`; an HTTPS-style URL has its `.git` suffix stripped; finally
the result must contain the substring `http`. -/
def get_url (url : Option Str) : Except Str Str :=
  match url with
  | some url =>
    (if "git@".data.isPrefixOf url then
        match (stripPrefixL url "git@".data).bind
            (fun url => stripSuffixL url ".git".data) with
        | some url => Except.ok ("https://".data ++ rustReplace url ':' '/')
        | none => Except.error invalidRemoteFormMsg
      else
        match stripSuffixL url ".git".data with
        | some stripped => Except.ok stripped
        | none => Except.error cannotGetUrlMsg).bind
      fun parsed_url =>
        if containsL parsed_url "http".data then Except.ok parsed_url
        else Except.error invalidRemoteFormMsg
  | none => Except.error cannotGetUrlMsg

/-- The normalization phase of `get_url`, before the `contains("http")`
sanity check: `none` when the strips fail, otherwise the normalized string. -/
def normalize (url : Str) : Option Str :=
  if "git@".data.isPrefixOf url then
    ((stripPrefixL url "git@".data).bind
        (fun url => stripSuffixL url ".git".data)).map
      fun url => "https://".data ++ rustReplace url ':' '/'
  else
    stripSuffixL url ".git".data

/-- The `--platform` values (src/main.rs lines 160–164). -/
inductive Platform
  | github
  | gitlab
deriving DecidableEq

/-- The base-URL selection step of `main` (src/main.rs lines 112–117): a
caller-supplied `--url` override is used verbatim; otherwise the `origin`
remote's URL is normalized with `get_url`. -/
def pick_url (opt_url remote_url : Option Str) : Except Str Str :=
  match opt_url with
  | some param_url => Except.ok param_url
  | none => get_url remote_url

/-- The platform-dispatch step of `main` (src/main.rs lines 119–134): an
explicit platform picks its builder; otherwise the URL is sniffed for the
substrings `github`, then `gitlab`; if neither occurs the program fails.
(The sniffed branches call the builder with `.unwrap()`; since the builders
always return `ok`, returning the builder's result is equivalent.) -/
def dispatch (platform : Option Platform) (url branch_or_commit file : Str)
    (line : Option Nat) : Except Str Str :=
  match platform with
  | some Platform.github => github url branch_or_commit file line
  | some Platform.gitlab => gitlab url branch_or_commit file line
  | none =>
    if containsL url "github".data then github url branch_or_commit file line
    else if containsL url "gitlab".data then gitlab url branch_or_commit file line
    else Except.error unknownUrlMsg

/-- `stripPrefixL` succeeds exactly on the strings that extend the pattern. -/
theorem stripPrefixL_eq_some {pat s r : Str} :
    stripPrefixL s pat = some r ↔ s = pat ++ r := by
  induction pat generalizing s with
  | nil => simp [stripPrefixL]
  | cons p ps ih =>
    cases s with
    | nil => simp [stripPrefixL]
    | cons c cs =>
      by_cases h : c = p
      · simp [stripPrefixL, h, ih]
      · simp [stripPrefixL, h, Ne.symm h]

/-- `stripPrefixL` fails exactly when the pattern is not a prefix. -/
theorem stripPrefixL_eq_none {pat s : Str} :
    stripPrefixL s pat = none ↔ ¬ pat <+: s := by
  constructor
  · rintro h ⟨t, rfl⟩
    rw [stripPrefixL_eq_some.mpr rfl] at h
    exact Option.noConfusion h
  · intro h
    cases hh : stripPrefixL s pat with
    | none => rfl
    | some r => exact absurd ⟨r, (stripPrefixL_eq_some.mp hh).symm⟩ h

/-- `stripSuffixL` succeeds exactly on the strings that end in the pattern. -/
theorem stripSuffixL_eq_some {pat s r : Str} :
    stripSuffixL s pat = some r ↔ s = r ++ pat := by
  constructor
  · intro h
    obtain ⟨a, ha, hrev⟩ := Option.map_eq_some'.mp h
    have hs : s.reverse = pat.reverse ++ a := stripPrefixL_eq_some.mp ha
    have := congrArg List.reverse hs
    simpa [hrev] using this
  · rintro rfl
    simp only [stripSuffixL, List.reverse_append, Option.map_eq_some']
    exact ⟨r.reverse, stripPrefixL_eq_some.mpr rfl, by simp⟩

/-- `stripSuffixL` fails exactly when the pattern is not a suffix. -/
theorem stripSuffixL_eq_none {pat s : Str} :
    stripSuffixL s pat = none ↔ ¬ pat <:+ s := by
  constructor
  · rintro h ⟨t, rfl⟩
    rw [stripSuffixL_eq_some.mpr rfl] at h
    exact Option.noConfusion h
  · intro h
    cases hh : stripSuffixL s pat with
    | none => rfl
    | some r => exact absurd ⟨r, (stripSuffixL_eq_some.mp hh).symm⟩ h

/-- `containsL` decides substring containment. -/
theorem containsL_iff {s pat : Str} : containsL s pat = true ↔ pat <:+: s := by
  simp [containsL]

/-- An `Except` value is `ok` exactly when `isOk` holds. -/
theorem except_isOk_iff {e : Except Str Str} :
    e.isOk = true ↔ ∃ r, e = Except.ok r := by
  cases e <;> simp [Except.isOk, Except.toBool]

/-- Prepending the `git@` marker does not affect whether a string ends in
`.git`: the two fragments cannot overlap because `.` occurs in neither. -/
theorem git_suffix_iff (rest : Str) :
    ".git".data <:+ ("git@".data ++ rest) ↔ ".git".data <:+ rest := by
  constructor
  · rintro ⟨x, hx⟩
    have hlen : x.length = rest.length := by
      have := congrArg List.length hx
      simp at this
      omega
    by_cases h4 : 4 ≤ rest.length
    · refine ⟨x.drop 4, ?_⟩
      have hx4 : 4 ≤ x.length := by omega
      have hrest : rest = x.drop 4 ++ ".git".data := by
        calc rest = ("git@".data ++ rest).drop 4 := (List.drop_left' (by rfl)).symm
          _ = (x ++ ".git".data).drop 4 := by rw [hx]
          _ = x.drop 4 ++ ".git".data := by
              rw [List.drop_append_eq_append_drop]
              simp [Nat.sub_eq_zero_of_le hx4]
      exact hrest.symm
    · exfalso
      have hub : x.length < 4 := by omega
      have h1 : (x ++ ".git".data)[x.length]? = some '.' := by
        rw [List.getElem?_append_right (le_refl _)]
        simp
      rw [hx] at h1
      have h2 : ("git@".data ++ rest)[x.length]? = "git@".data[x.length]? := by
        apply List.getElem?_append_left
        simpa using hub
      rw [h2] at h1
      set k := x.length with hk
      interval_cases k <;> exact absurd h1 (by decide)
  · rintro ⟨y, hy⟩
    exact ⟨"git@".data ++ y, by rw [List.append_assoc, hy]⟩

/-- A string that begins with `https://` passes the `contains("http")` check. -/
theorem containsL_https (y : Str) :
    containsL ("https://".data ++ y) "http".data = true := by
  rw [containsL_iff]
  refine List.IsPrefix.isInfix ⟨"s://".data ++ y, ?_⟩
  rw [← List.append_assoc]
  rfl

/-- `get_url` on a well-formed SSH remote: the `git@` prefix and `.git`
suffix are stripped, `:` becomes `/`, and `https://` is prepended. -/
theorem get_url_ssh_ok (s : Str) :
    get_url (some ("git@".data ++ s ++ ".git".data)) =
      Except.ok ("https://".data ++ rustReplace s ':' '/') := by
  have hpre : "git@".data.isPrefixOf ("git@".data ++ s ++ ".git".data) = true := by
    rw [List.isPrefixOf_iff_prefix]
    exact ⟨s ++ ".git".data, by simp⟩
  have h1 : stripPrefixL ("git@".data ++ s ++ ".git".data) "git@".data
      = some (s ++ ".git".data) := stripPrefixL_eq_some.mpr (by simp)
  have h2 : stripSuffixL (s ++ ".git".data) ".git".data = some s :=
    stripSuffixL_eq_some.mpr rfl
  simp only [get_url, if_pos hpre, h1, Option.bind, h2, Except.bind]
  rw [if_pos (containsL_https (rustReplace s ':' '/'))]

/-- `get_url` on an SSH-marked remote without the `.git` suffix fails with
the `Invalid remote form` message. -/
theorem get_url_ssh_err (u : Str)
    (hpre : "git@".data.isPrefixOf u = true)
    (hsuf : ".git".data.isSuffixOf u = false) :
    get_url (some u) = Except.error invalidRemoteFormMsg := by
  obtain ⟨rest, hrest⟩ := List.isPrefixOf_iff_prefix.mp hpre
  have hnsuf : ¬ ".git".data <:+ u := by
    intro h
    rw [← List.isSuffixOf_iff_suffix] at h
    rw [h] at hsuf
    exact Bool.noConfusion hsuf
  subst hrest
  have h1 : stripPrefixL ("git@".data ++ rest) "git@".data = some rest :=
    stripPrefixL_eq_some.mpr rfl
  have h2 : stripSuffixL rest ".git".data = none :=
    stripSuffixL_eq_none.mpr fun h => hnsuf ((git_suffix_iff rest).mpr h)
  simp only [get_url, if_pos hpre, h1, Option.bind, h2, Except.bind]

/-- `get_url` on a non-SSH remote ending in `.git` whose stripped form
contains `http`: the suffix is stripped and the result returned. -/
theorem get_url_strip_ok (v : Str)
    (hpre : "git@".data.isPrefixOf (v ++ ".git".data) = false)
    (hhttp : containsL v "http".data = true) :
    get_url (some (v ++ ".git".data)) = Except.ok v := by
  have h1 : stripSuffixL (v ++ ".git".data) ".git".data = some v :=
    stripSuffixL_eq_some.mpr rfl
  simp [get_url, hpre, h1, hhttp, Except.bind]

/-- `get_url` on a non-SSH remote ending in `.git` whose stripped form does
not contain `http` fails the sanity check. -/
theorem get_url_strip_nohttp (v : Str)
    (hpre : "git@".data.isPrefixOf (v ++ ".git".data) = false)
    (hhttp : containsL v "http".data = false) :
    get_url (some (v ++ ".git".data)) = Except.error invalidRemoteFormMsg := by
  have h1 : stripSuffixL (v ++ ".git".data) ".git".data = some v :=
    stripSuffixL_eq_some.mpr rfl
  simp [get_url, hpre, h1, hhttp, Except.bind]

/-- `get_url` on a string with neither the `git@` prefix nor the `.git`
suffix fails with the `cannot get repository url` message. -/
theorem get_url_no_suffix (u : Str)
    (hpre : "git@".data.isPrefixOf u = false)
    (hsuf : ".git".data.isSuffixOf u = false) :
    get_url (some u) = Except.error cannotGetUrlMsg := by
  have h1 : stripSuffixL u ".git".data = none := by
    rw [stripSuffixL_eq_none]
    intro h
    rw [← List.isSuffixOf_iff_suffix] at h
    rw [h] at hsuf
    exact Bool.noConfusion hsuf
  simp [get_url, hpre, h1, Except.bind]

/-- The normalization phase fails exactly when the input does not end in
`.git` (in the SSH branch the strips fail exactly in that case too). -/
theorem normalize_eq_none_iff (u : Str) :
    normalize u = none ↔ ".git".data.isSuffixOf u = false := by
  have hsuf : (".git".data.isSuffixOf u = false) ↔ ¬ ".git".data <:+ u := by
    rw [← List.isSuffixOf_iff_suffix]
    cases h : ".git".data.isSuffixOf u <;> simp [h]
  by_cases hpre : "git@".data.isPrefixOf u
  · obtain ⟨rest, hrest⟩ := List.isPrefixOf_iff_prefix.mp hpre
    subst hrest
    have h1 : stripPrefixL ("git@".data ++ rest) "git@".data = some rest :=
      stripPrefixL_eq_some.mpr rfl
    rw [normalize, if_pos hpre, h1]
    simp only [Option.some_bind, Option.map_eq_none']
    rw [stripSuffixL_eq_none, hsuf]
    exact (not_congr (git_suffix_iff rest)).symm
  · rw [normalize, if_neg hpre, stripSuffixL_eq_none, hsuf]

/-- `get_url` succeeds exactly when normalization succeeds and its result
passes the `contains("http")` check, and then returns that result. -/
theorem get_url_ok_iff (u : Str) :
    (∃ r, get_url (some u) = Except.ok r) ↔
      ∃ r, normalize u = some r ∧ containsL r "http".data = true := by
  by_cases hpre : "git@".data.isPrefixOf u
  · obtain ⟨rest, hrest⟩ := List.isPrefixOf_iff_prefix.mp hpre
    subst hrest
    have h1 : stripPrefixL ("git@".data ++ rest) "git@".data = some rest :=
      stripPrefixL_eq_some.mpr rfl
    cases h2 : stripSuffixL rest ".git".data with
    | none =>
      simp only [get_url, normalize, if_pos hpre, h1, Option.bind, h2,
        Except.bind, Option.map_none']
      simp
    | some w =>
      simp only [get_url, normalize, if_pos hpre, h1, Option.bind, h2,
        Except.bind, Option.map_some', if_pos (containsL_https (rustReplace w ':' '/'))]
      simp only [Except.ok.injEq, exists_eq', Option.some.injEq, true_iff]
      exact ⟨_, rfl, containsL_https _⟩
  · cases h2 : stripSuffixL u ".git".data with
    | none => simp [get_url, normalize, hpre, h2, Except.bind]
    | some w =>
      by_cases hh : containsL w "http".data = true
      · simp [get_url, normalize, hpre, h2, Except.bind, hh]
      · simp [get_url, normalize, hpre, h2, Except.bind, hh]

/-- Closed form of `github`: `ok` of the blob URL with the optional
`#L{line}` fragment. -/
theorem github_eq (B R P : Str) (l : Option Nat) :
    github B R P l = Except.ok ((B ++ "/blob/".data ++ R ++ "/".data ++ P) ++
      (match l with | some n => "#L".data ++ natChars n | none => [])) := by
  cases l with
  | none => exact congrArg Except.ok (List.append_nil _).symm
  | some n => rfl

/-- Closed form of `gitlab`: `ok` of the blob URL with the optional
`#L{line}` fragment. -/
theorem gitlab_eq (B R P : Str) (l : Option Nat) :
    gitlab B R P l = Except.ok ((B ++ "/-/blob/".data ++ R ++ "/".data ++ P) ++
      (match l with | some n => "#L".data ++ natChars n | none => [])) := by
  cases l with
  | none => exact congrArg Except.ok (List.append_nil _).symm
  | some n => rfl

/-- Whatever `github` returns starts with the base URL it was given. -/
theorem github_base {B R P : Str} {l : Option Nat} {r : Str}
    (h : github B R P l = Except.ok r) : B.isPrefixOf r = true := by
  rw [github_eq] at h
  simp only [Except.ok.injEq] at h
  subst h
  rw [List.isPrefixOf_iff_prefix]
  exact ((((List.prefix_append B _).trans (List.prefix_append _ _)).trans
    (List.prefix_append _ _)).trans (List.prefix_append _ _)).trans
    (List.prefix_append _ _)

/-- Whatever `gitlab` returns starts with the base URL it was given. -/
theorem gitlab_base {B R P : Str} {l : Option Nat} {r : Str}
    (h : gitlab B R P l = Except.ok r) : B.isPrefixOf r = true := by
  rw [gitlab_eq] at h
  simp only [Except.ok.injEq] at h
  subst h
  rw [List.isPrefixOf_iff_prefix]
  exact ((((List.prefix_append B _).trans (List.prefix_append _ _)).trans
    (List.prefix_append _ _)).trans (List.prefix_append _ _)).trans
    (List.prefix_append _ _)

/-- C1: for every base URL `B`, ref `R`, path `P` and optional line `n`,
`github(B,R,P,None)` returns `Ok` of `{B}/blob/{R}/{P}`, and
`github(B,R,P,Some n)` returns `Ok` of that same string with `#L{n}`
appended. -/
theorem claim_C1 : ∀ (B R P : Str) (n : Nat),
    github B R P none = Except.ok (B ++ "/blob/".data ++ R ++ "/".data ++ P) ∧
    github B R P (some n) = Except.ok
      ((B ++ "/blob/".data ++ R ++ "/".data ++ P) ++ ("#L".data ++ natChars n)) := by
  intro B R P n
  exact ⟨rfl, rfl⟩

/-- C2: for every base URL `B`, ref `R`, path `P` and optional line `n`,
`gitlab(B,R,P,None)` returns `Ok` of the GitLab blob URL (with the extra
`-` segment), and `gitlab(B,R,P,Some n)` returns `Ok` of that same string
with `#L{n}` appended. -/
theorem claim_C2 : ∀ (B R P : Str) (n : Nat),
    gitlab B R P none = Except.ok (B ++ "/-/blob/".data ++ R ++ "/".data ++ P) ∧
    gitlab B R P (some n) = Except.ok
      ((B ++ "/-/blob/".data ++ R ++ "/".data ++ P) ++ ("#L".data ++ natChars n)) := by
  intro B R P n
  exact ⟨rfl, rfl⟩

/-- C3: `get_url` on `git@ ++ s ++ .git` returns `Ok` of `https://` followed
by `s` with every `:` replaced by `/`; in particular the `host:owner/repo`
instance; and on a `git@`-prefixed string without the `.git` suffix it fails
with the `Invalid remote form` error. -/
theorem claim_C3 :
    (∀ s : Str, get_url (some ("git@".data ++ s ++ ".git".data)) =
        Except.ok ("https://".data ++ rustReplace s ':' '/')) ∧
    get_url (some "git@host:owner/repo.git".data) =
      Except.ok "https://host/owner/repo".data ∧
    ∀ u : Str, "git@".data.isPrefixOf u = true →
      ".git".data.isSuffixOf u = false →
      get_url (some u) = Except.error invalidRemoteFormMsg :=
  ⟨get_url_ssh_ok, by rfl, get_url_ssh_err⟩

/-- Witness for C3 at concrete inputs. -/
theorem claim_C3_witness :
    get_url (some ("git@".data ++ "host:owner/repo".data ++ ".git".data)) =
      Except.ok ("https://".data ++ rustReplace "host:owner/repo".data ':' '/') ∧
    get_url (some "git@github.com:someone/repo".data) =
      Except.error invalidRemoteFormMsg :=
  ⟨claim_C3.1 _, claim_C3.2.2 _ (by rfl) (by rfl)⟩

/-- C4: `get_url` on a non-`git@` string of the form `v ++ .git` strips the
suffix and returns `Ok v` provided `v` contains the substring `http`; in
particular the `https://host/owner/repo.git` instance. -/
theorem claim_C4 :
    (∀ v : Str, "git@".data.isPrefixOf (v ++ ".git".data) = false →
        containsL v "http".data = true →
        get_url (some (v ++ ".git".data)) = Except.ok v) ∧
    get_url (some "https://host/owner/repo.git".data) =
      Except.ok "https://host/owner/repo".data :=
  ⟨get_url_strip_ok, by rfl⟩

/-- Witness for C4 at a concrete input. -/
theorem claim_C4_witness :
    get_url (some ("https://h/o/r".data ++ ".git".data)) =
      Except.ok "https://h/o/r".data :=
  claim_C4.1 _ (by rfl) (by decide)

/-- C5: `get_url` errs exactly when the input is absent, or has neither the
`git@` prefix nor the `.git` suffix, or has the `git@` prefix but not the
`.git` suffix, or its normalized form does not contain `http`; equivalently
it succeeds exactly on inputs whose normalized form contains `http`. -/
theorem claim_C5 :
    (∀ ou : Option Str, (get_url ou).isOk = false ↔
        (ou = none ∨ ∃ u, ou = some u ∧
          (("git@".data.isPrefixOf u = false ∧ ".git".data.isSuffixOf u = false) ∨
           ("git@".data.isPrefixOf u = true ∧ ".git".data.isSuffixOf u = false) ∨
           ∃ r, normalize u = some r ∧ containsL r "http".data = false))) ∧
    ∀ u : Str, (get_url (some u)).isOk = true ↔
      ∃ r, normalize u = some r ∧ containsL r "http".data = true := by
  have hok : ∀ u : Str, (get_url (some u)).isOk = true ↔
      ∃ r, normalize u = some r ∧ containsL r "http".data = true := by
    intro u
    rw [except_isOk_iff]
    exact get_url_ok_iff u
  refine ⟨?_, hok⟩
  intro ou
  cases ou with
  | none => simp [get_url, Except.isOk, Except.toBool]
  | some u =>
    have hfalse : (get_url (some u)).isOk = false ↔
        ¬ ((get_url (some u)).isOk = true) := by
      cases h : (get_url (some u)).isOk <;> simp [h]
    rw [hfalse, hok u]
    cases hn : normalize u with
    | none =>
      have hsuf : ".git".data.isSuffixOf u = false := (normalize_eq_none_iff u).mp hn
      cases hgit : "git@".data.isPrefixOf u with
      | false => simp [hn, hsuf, hgit]
      | true =>
        simp [hn, hsuf, hgit]
        exact List.isPrefixOf_iff_prefix.mp hgit
    | some r =>
      have hsuf : ".git".data.isSuffixOf u = true := by
        cases h : ".git".data.isSuffixOf u
        · exact absurd hn (by simp [(normalize_eq_none_iff u).mpr h])
        · rfl
      simp [hn, hsuf]

/-- C6 (counterexample to the message clause): on a URL containing neither
`github` nor `gitlab` the dispatch fails, but the error message is
`unknown url, try passing --url param`: it does not mention a platform at
all, so it does not instruct the caller to pass an explicit platform — it
suggests the `--url` override instead. -/
theorem claim_C6_cex :
    dispatch none "x".data "b".data "f".data none = Except.error unknownUrlMsg ∧
    containsL unknownUrlMsg "platform".data = false ∧
    containsL unknownUrlMsg "--url".data = true := by
  refine ⟨by rfl, by decide, by decide⟩

/-- C6 (amended): an explicit platform picks its builder; otherwise a URL
containing `github` goes to the GitHub builder, else one containing
`gitlab` goes to the GitLab builder, else the program fails with the error
message `unknown url, try passing --url param` (which suggests the `--url`
override rather than an explicit platform). -/
theorem claim_C6 : ∀ (url bc file : Str) (line : Option Nat),
    dispatch (some Platform.github) url bc file line = github url bc file line ∧
    dispatch (some Platform.gitlab) url bc file line = gitlab url bc file line ∧
    (containsL url "github".data = true →
      dispatch none url bc file line = github url bc file line) ∧
    (containsL url "github".data = false → containsL url "gitlab".data = true →
      dispatch none url bc file line = gitlab url bc file line) ∧
    (containsL url "github".data = false → containsL url "gitlab".data = false →
      dispatch none url bc file line = Except.error unknownUrlMsg) := by
  intro url bc file line
  refine ⟨rfl, rfl, ?_, ?_, ?_⟩
  · intro h
    simp only [dispatch]
    rw [h]
    simp
  · intro h1 h2
    simp only [dispatch]
    rw [h1, h2]
    simp
  · intro h1 h2
    simp only [dispatch]
    rw [h1, h2]
    simp

/-- Witness for C6 at concrete inputs. -/
theorem claim_C6_witness :
    dispatch (some Platform.github) "u".data "b".data "f".data none =
      github "u".data "b".data "f".data none ∧
    dispatch none "github.com/a".data "b".data "f".data none =
      github "github.com/a".data "b".data "f".data none ∧
    dispatch none "gitlab.com/a".data "b".data "f".data none =
      gitlab "gitlab.com/a".data "b".data "f".data none ∧
    dispatch none "x".data "b".data "f".data none = Except.error unknownUrlMsg :=
  ⟨(claim_C6 _ _ _ _).1,
    (claim_C6 _ _ _ _).2.2.1 (by decide),
    (claim_C6 _ _ _ _).2.2.2.1 (by decide) (by decide),
    (claim_C6 _ _ _ _).2.2.2.2 (by decide) (by decide)⟩

/-- C7 (counterexample to distinguishability): an absent input and an input
with neither the `git@` prefix nor the `.git` suffix produce the very same
error value — both carry the message `cannot get repository url` — so those
two failure kinds are not distinguishable from the returned value. -/
theorem claim_C7_cex :
    get_url none = Except.error cannotGetUrlMsg ∧
    get_url (some "abc".data) = Except.error cannotGetUrlMsg :=
  ⟨rfl, by rfl⟩

/-- C7 (amended): the `Invalid remote form` failures (failed strip or failed
sanity check) are distinguishable from the other two kinds, but the absent
input and the neither-prefix-nor-suffix input share the one message
`cannot get repository url` and are not distinguishable from each other. -/
theorem claim_C7 :
    get_url none = Except.error cannotGetUrlMsg ∧
    (∀ u : Str, "git@".data.isPrefixOf u = false → ".git".data.isSuffixOf u = false →
      get_url (some u) = Except.error cannotGetUrlMsg) ∧
    (∀ u : Str, "git@".data.isPrefixOf u = true → ".git".data.isSuffixOf u = false →
      get_url (some u) = Except.error invalidRemoteFormMsg) ∧
    (∀ v : Str, "git@".data.isPrefixOf (v ++ ".git".data) = false →
      containsL v "http".data = false →
      get_url (some (v ++ ".git".data)) = Except.error invalidRemoteFormMsg) ∧
    invalidRemoteFormMsg ≠ cannotGetUrlMsg :=
  ⟨rfl, get_url_no_suffix, get_url_ssh_err, get_url_strip_nohttp, by decide⟩

/-- Witness for C7 at concrete inputs. -/
theorem claim_C7_witness :
    get_url (some "host/repo".data) = Except.error cannotGetUrlMsg ∧
    get_url (some "git@abc".data) = Except.error invalidRemoteFormMsg ∧
    get_url (some ("a".data ++ ".git".data)) = Except.error invalidRemoteFormMsg :=
  ⟨claim_C7.2.1 _ (by rfl) (by rfl),
    claim_C7.2.2.1 _ (by rfl) (by rfl),
    claim_C7.2.2.2.1 _ (by rfl) (by decide)⟩

/-- C8: the builders are total: for every base URL, ref, path and optional
line both `github` and `gitlab` return `ok` (the formatting-buffer error
branch of `fmtWrite` is unreachable). -/
theorem claim_C8 : ∀ (B R P : Str) (l : Option Nat),
    (github B R P l).isOk = true ∧ (gitlab B R P l).isOk = true := by
  intro B R P l
  cases l <;> exact ⟨rfl, rfl⟩

/-- C9: a caller-supplied `--url` override is used verbatim: `pick_url`
returns it unchanged without ever calling `get_url` on it, and whenever
dispatch produces a URL from it, that URL starts with the exact override
string. -/
theorem claim_C9 :
    (∀ (param_url : Str) (remote_url : Option Str),
        pick_url (some param_url) remote_url = Except.ok param_url) ∧
    ∀ (param_url bc file : Str) (line : Option Nat) (p : Option Platform) (r : Str),
      dispatch p param_url bc file line = Except.ok r →
      param_url.isPrefixOf r = true := by
  refine ⟨fun _ _ => rfl, ?_⟩
  intro param_url bc file line p r h
  cases p with
  | some pl =>
    cases pl with
    | github => exact github_base h
    | gitlab => exact gitlab_base h
  | none =>
    by_cases h1 : containsL param_url "github".data = true
    · rw [dispatch] at h
      rw [if_pos h1] at h
      exact github_base h
    · by_cases h2 : containsL param_url "gitlab".data = true
      · rw [dispatch] at h
        rw [if_neg h1, if_pos h2] at h
        exact gitlab_base h
      · rw [dispatch] at h
        rw [if_neg h1, if_neg h2] at h
        exact Except.noConfusion h

/-- Witness for C9 at a concrete SSH-form, non-http override. -/
theorem claim_C9_witness :
    pick_url (some "git@x.git".data) (some "y".data) = Except.ok "git@x.git".data ∧
    "git@x.git".data.isPrefixOf "git@x.git/blob/b/f".data = true :=
  ⟨claim_C9.1 _ _,
    claim_C9.2 "git@x.git".data "b".data "f".data none (some Platform.github)
      "git@x.git/blob/b/f".data (by rfl)⟩

/-- C10: when no explicit platform is given and the URL contains both
`github` and `gitlab`, the GitHub builder wins: the `github` check is
evaluated first. -/
theorem claim_C10 : ∀ (url bc file : Str) (line : Option Nat),
    containsL url "github".data = true → containsL url "gitlab".data = true →
    dispatch none url bc file line = github url bc file line := by
  intro url bc file line h1 _
  simp only [dispatch]
  rw [h1]
  simp

/-- Witness for C10 at a URL containing both substrings. -/
theorem claim_C10_witness :
    dispatch none "https://github.gitlab.com/a".data "b".data "f".data none =
      github "https://github.gitlab.com/a".data "b".data "f".data none :=
  claim_C10 _ _ _ _ (by decide) (by decide)

end GitFileUrl
